import Mathlib

/-!
Verification of the pyspresso JDWP Composite-event decode path.

The repository source (src/pyspresso/events.py) declares the event variants
and their wire schemas (the per-class `_unpack_order` tuples and class-level
default attributes). The decoding machinery itself (IdentifierWidths,
FieldDecoder, EventSchemaRegistry, CompositeDecoder) and the EventKind
constant table live outside the shown source and are modelled here from the
specification of the wire format (big-endian fields, identifier widths
negotiated per session, Location triples, TaggedValue, length-prefixed
strings, all-or-nothing Composite decoding).
-/

namespace Pyspresso

/-- Big-endian interpretation of a list of bytes as a natural number. -/
def fromBytesBE (l : List Nat) : Nat :=
  l.foldl (fun acc b => acc * 256 + b) 0

/-- Big-endian encoding of a natural number into exactly `w` bytes
(most significant first); overflowing high bits are dropped. -/
def toBytesBE : Nat → Nat → List Nat
  | 0, _ => []
  | w + 1, n => toBytesBE w (n / 256) ++ [n % 256]

/-- Modelled from the spec: the error kinds of the decoder (section 7 of the
design: TruncatedBufferError, UnknownTagError, UnsupportedEventKindError,
InvalidSuspendPolicyError). `malformedFields` is an internal impossibility
marker used when decoded field values do not fit the variant constructor. -/
inductive DecodeError where
  | truncatedBuffer
  | unknownTag
  | unsupportedEventKind
  | invalidSuspendPolicy
  | malformedFields
deriving DecidableEq, Repr

/-- Modelled from the spec: a Composite-level decode failure is either a
header failure or a failure while decoding event entry `k` (the caller
receives the error plus the index of the failing event). -/
inductive CompositeError where
  | header (e : DecodeError)
  | atEvent (e : DecodeError) (k : Nat)
deriving DecidableEq, Repr

/-- Identifier categories whose byte widths are negotiated by the handshake. -/
inductive IdCat where
  | object
  | thread
  | frame
  | method
  | field
  | refType
deriving DecidableEq, Repr

/-- Modelled from the spec: IdentifierWidths, the immutable record of the
negotiated byte width for each identifier category. -/
structure IdentifierWidths where
  objectW : Nat
  threadW : Nat
  frameW : Nat
  methodW : Nat
  fieldW : Nat
  refTypeW : Nat
deriving DecidableEq, Repr

/-- Width lookup by category. -/
def IdentifierWidths.width (w : IdentifierWidths) : IdCat → Nat
  | .object => w.objectW
  | .thread => w.threadW
  | .frame => w.frameW
  | .method => w.methodW
  | .field => w.fieldW
  | .refType => w.refTypeW

/-- The all-4-byte identifier-width configuration. -/
def widths4 : IdentifierWidths := ⟨4, 4, 4, 4, 4, 4⟩

/-- The all-8-byte identifier-width configuration. -/
def widths8 : IdentifierWidths := ⟨8, 8, 8, 8, 8, 8⟩

/-- A Location: reference-type tag, class identifier, method identifier and
an 8-byte code index, always decoded as one atomic unit. -/
structure Location where
  tag : Nat
  classId : Nat
  methodId : Nat
  index : Nat
deriving DecidableEq, Repr

/-- Payload of a TaggedValue: no payload (void), a numeric payload, or raw
string bytes (for the inline length-prefixed string form). -/
inductive TVData where
  | unit
  | num (n : Nat)
  | bytes (s : List Nat)
deriving DecidableEq, Repr

/-- A TaggedValue: a one-byte type tag plus a payload whose width and
interpretation depend on the tag. -/
structure TaggedValue where
  tag : Nat
  data : TVData
deriving DecidableEq, Repr

/-- Shape of a TaggedValue payload as selected by the tag byte. -/
inductive TagKind where
  | prim (width : Nat)
  | objectRef
  | void
  | utf
deriving DecidableEq, Repr

/-- Modelled from the spec: the recognized TaggedValue tag set and the payload
each tag selects (boolean and byte are 1 byte, short 2, int and float 4, long
and double 8, object-reference categories use the object-identifier width,
void has no payload, string is a 4-byte length prefix plus UTF-8 bytes).
Tag bytes are the JDWP-style ASCII tags. -/
def payloadSpec : Nat → Option TagKind
  | 90 => some (.prim 1)
  | 66 => some (.prim 1)
  | 83 => some (.prim 2)
  | 73 => some (.prim 4)
  | 70 => some (.prim 4)
  | 74 => some (.prim 8)
  | 68 => some (.prim 8)
  | 86 => some .void
  | 115 => some .utf
  | 76 => some .objectRef
  | 91 => some .objectRef
  | 116 => some .objectRef
  | 103 => some .objectRef
  | 108 => some .objectRef
  | 99 => some .objectRef
  | _ => none

/-- A decoded field value. -/
inductive FieldValue where
  | int (n : Nat)
  | bool (b : Bool)
  | loc (l : Location)
  | tagged (tv : TaggedValue)
  | str (s : List Nat)
deriving DecidableEq, Repr

/-- A field-decode instruction, one per FieldDecoder operation. -/
inductive FieldType where
  | u8
  | u32
  | u64
  | boolean
  | ident (c : IdCat)
  | location
  | tagged
  | utfString
deriving DecidableEq, Repr

/-- Modelled from the spec: decode a big-endian fixed-width unsigned integer
of `n` bytes at offset `off`; fails with TruncatedBufferError when fewer than
`n` bytes remain. -/
def decodeUn (buf : List Nat) (off n : Nat) : Except DecodeError (Nat × Nat) :=
  if off + n ≤ buf.length then
    .ok (fromBytesBE ((buf.drop off).take n), off + n)
  else
    .error .truncatedBuffer

/-- Modelled from the spec: decodeU8. -/
def decodeU8 (buf : List Nat) (off : Nat) : Except DecodeError (Nat × Nat) :=
  decodeUn buf off 1

/-- Modelled from the spec: decodeU32. -/
def decodeU32 (buf : List Nat) (off : Nat) : Except DecodeError (Nat × Nat) :=
  decodeUn buf off 4

/-- Modelled from the spec: decodeU64. -/
def decodeU64 (buf : List Nat) (off : Nat) : Except DecodeError (Nat × Nat) :=
  decodeUn buf off 8

/-- Modelled from the spec: decodeIdentifier, consuming exactly the width
recorded in IdentifierWidths for the category. -/
def decodeIdentifier (w : IdentifierWidths) (c : IdCat) (buf : List Nat)
    (off : Nat) : Except DecodeError (Nat × Nat) :=
  decodeUn buf off (w.width c)

/-- Modelled from the spec: decodeLocation, a 1-byte reference-type tag, a
class identifier, a method identifier, and an 8-byte index. -/
def decodeLocation (w : IdentifierWidths) (buf : List Nat) (off : Nat) :
    Except DecodeError (Location × Nat) :=
  match decodeU8 buf off with
  | .error e => .error e
  | .ok (tag, o1) =>
    match decodeIdentifier w .refType buf o1 with
    | .error e => .error e
    | .ok (cid, o2) =>
      match decodeIdentifier w .method buf o2 with
      | .error e => .error e
      | .ok (mid, o3) =>
        match decodeU64 buf o3 with
        | .error e => .error e
        | .ok (idx, o4) => .ok (⟨tag, cid, mid, idx⟩, o4)

/-- Modelled from the spec: decodeString, a 4-byte length prefix followed by
that many UTF-8 bytes. -/
def decodeUtf (buf : List Nat) (off : Nat) :
    Except DecodeError (List Nat × Nat) :=
  match decodeU32 buf off with
  | .error e => .error e
  | .ok (len, o1) =>
    if o1 + len ≤ buf.length then
      .ok ((buf.drop o1).take len, o1 + len)
    else
      .error .truncatedBuffer

/-- Modelled from the spec: decodeTaggedValue, a 1-byte tag followed by a
payload whose width is selected by the tag; fails with UnknownTagError when
the tag byte is not in the recognized set. -/
def decodeTaggedValue (w : IdentifierWidths) (buf : List Nat) (off : Nat) :
    Except DecodeError (TaggedValue × Nat) :=
  match decodeU8 buf off with
  | .error e => .error e
  | .ok (tag, o1) =>
    match payloadSpec tag with
    | some (.prim n) =>
      match decodeUn buf o1 n with
      | .error e => .error e
      | .ok (v, o2) => .ok (⟨tag, .num v⟩, o2)
    | some .objectRef =>
      match decodeIdentifier w .object buf o1 with
      | .error e => .error e
      | .ok (v, o2) => .ok (⟨tag, .num v⟩, o2)
    | some .void => .ok (⟨tag, .unit⟩, o1)
    | some .utf =>
      match decodeUtf buf o1 with
      | .error e => .error e
      | .ok (s, o2) => .ok (⟨tag, .bytes s⟩, o2)
    | none => .error .unknownTag

/-- Dispatch a single FieldDecoder operation by field type. -/
def decodeField (w : IdentifierWidths) (ft : FieldType) (buf : List Nat)
    (off : Nat) : Except DecodeError (FieldValue × Nat) :=
  match ft with
  | .u8 =>
    match decodeU8 buf off with
    | .error e => .error e
    | .ok (v, o) => .ok (.int v, o)
  | .u32 =>
    match decodeU32 buf off with
    | .error e => .error e
    | .ok (v, o) => .ok (.int v, o)
  | .u64 =>
    match decodeU64 buf off with
    | .error e => .error e
    | .ok (v, o) => .ok (.int v, o)
  | .boolean =>
    match decodeU8 buf off with
    | .error e => .error e
    | .ok (v, o) => .ok (.bool (v != 0), o)
  | .ident c =>
    match decodeIdentifier w c buf off with
    | .error e => .error e
    | .ok (v, o) => .ok (.int v, o)
  | .location =>
    match decodeLocation w buf off with
    | .error e => .error e
    | .ok (l, o) => .ok (.loc l, o)
  | .tagged =>
    match decodeTaggedValue w buf off with
    | .error e => .error e
    | .ok (tv, o) => .ok (.tagged tv, o)
  | .utfString =>
    match decodeUtf buf off with
    | .error e => .error e
    | .ok (s, o) => .ok (.str s, o)

/-- Decode the fields of a schema in declared order, threading the cursor. -/
def decodeFields (w : IdentifierWidths) :
    List (String × FieldType) → List Nat → Nat →
    Except DecodeError (List FieldValue × Nat)
  | [], _, off => .ok ([], off)
  | (_, ft) :: rest, buf, off =>
    match decodeField w ft buf off with
    | .error e => .error e
    | .ok (v, o1) =>
      match decodeFields w rest buf o1 with
      | .error e => .error e
      | .ok (vs, o2) => .ok (v :: vs, o2)

/-- The closed set of event classes declared in src/pyspresso/events.py. -/
inductive EventClass where
  | vmStart
  | singleStep
  | breakpoint
  | methodEntry
  | methodExit
  | methodExitWithReturnValue
  | monitorContendedEnter
  | monitorContendedEntered
  | monitorWait
  | monitorWaited
  | exceptionEvent
  | threadStart
  | threadDeath
  | classPrepare
  | classUnload
  | fieldAccess
  | fieldModification
  | vmDeath
deriving DecidableEq, Repr

/-- The per-class `_unpack_order` tuples, verbatim from the source. -/
def unpackOrder : EventClass → List String
  | .vmStart => ["request_id", "thread"]
  | .singleStep => ["request_id", "thread", "location"]
  | .breakpoint => ["request_id", "thread", "location"]
  | .methodEntry => ["request_id", "thread", "location"]
  | .methodExit => ["request_id", "thread", "location"]
  | .methodExitWithReturnValue => ["request_id", "thread", "location", "value"]
  | .monitorContendedEnter => ["request_id", "thread", "object", "location"]
  | .monitorContendedEntered => ["request_id", "thread", "object", "location"]
  | .monitorWait => ["request_id", "thread", "object", "location", "timeout"]
  | .monitorWaited => ["request_id", "thread", "object", "location", "timed_out"]
  | .exceptionEvent =>
    ["request_id", "thread", "location", "exception", "catch_location"]
  | .threadStart => ["request_id", "thread"]
  | .threadDeath => ["request_id", "thread"]
  | .classPrepare =>
    ["request_id", "thread", "ref_type_tag", "type_id", "signature", "status"]
  | .classUnload => ["request_id", "signature"]
  | .fieldAccess =>
    ["request_id", "thread", "location", "ref_type_tag", "type_id",
     "field_id", "object"]
  | .fieldModification =>
    ["request_id", "thread", "location", "ref_type_tag", "type_id",
     "field_id", "object", "value_to_be"]
  | .vmDeath => ["request_id"]

/-- Modelled from the spec: the decode operation each schema field name
selects (request_id and status are 4-byte integers, thread and object and
exception are identifiers, locations are Location triples, timeout is a
fixed 8-byte integer, timed_out is a 1-byte boolean, ref_type_tag is one
byte, type_id and field_id are identifiers of their categories, signature is
a length-prefixed string, value fields are TaggedValues). -/
def fieldOpOf : String → FieldType
  | "request_id" => .u32
  | "thread" => .ident .thread
  | "location" => .location
  | "object" => .ident .object
  | "exception" => .ident .object
  | "catch_location" => .location
  | "timeout" => .u64
  | "timed_out" => .boolean
  | "ref_type_tag" => .u8
  | "type_id" => .ident .refType
  | "field_id" => .ident .field
  | "signature" => .utfString
  | "status" => .u32
  | "value" => .tagged
  | "value_to_be" => .tagged
  | _ => .u32

/-- The decode schema of a variant: its `_unpack_order` names paired with
their decode operations, in declared order. -/
def schemaOf (c : EventClass) : List (String × FieldType) :=
  (unpackOrder c).map fun n => (n, fieldOpOf n)

/-- Modelled from the spec: the EventKind constant table (external to the
shown source), giving each event class its 1-byte wire kind code. -/
def kindCode : EventClass → Nat
  | .vmStart => 90
  | .singleStep => 1
  | .breakpoint => 2
  | .methodEntry => 40
  | .methodExit => 41
  | .methodExitWithReturnValue => 42
  | .monitorContendedEnter => 43
  | .monitorContendedEntered => 44
  | .monitorWait => 45
  | .monitorWaited => 46
  | .exceptionEvent => 4
  | .threadStart => 6
  | .threadDeath => 7
  | .classPrepare => 8
  | .classUnload => 9
  | .fieldAccess => 20
  | .fieldModification => 21
  | .vmDeath => 99

/-- The EventSchemaRegistry lookup: kind code to event class, or none when
the code is absent from the table. -/
def classOfKind : Nat → Option EventClass
  | 90 => some .vmStart
  | 1 => some .singleStep
  | 2 => some .breakpoint
  | 40 => some .methodEntry
  | 41 => some .methodExit
  | 42 => some .methodExitWithReturnValue
  | 43 => some .monitorContendedEnter
  | 44 => some .monitorContendedEntered
  | 45 => some .monitorWait
  | 46 => some .monitorWaited
  | 4 => some .exceptionEvent
  | 6 => some .threadStart
  | 7 => some .threadDeath
  | 8 => some .classPrepare
  | 9 => some .classUnload
  | 20 => some .fieldAccess
  | 21 => some .fieldModification
  | 99 => some .vmDeath
  | _ => none

/-- The 18 event classes, in source declaration order. -/
def allEventClasses : List EventClass :=
  [.vmStart, .singleStep, .breakpoint, .methodEntry, .methodExit,
   .methodExitWithReturnValue, .monitorContendedEnter,
   .monitorContendedEntered, .monitorWait, .monitorWaited, .exceptionEvent,
   .threadStart, .threadDeath, .classPrepare, .classUnload, .fieldAccess,
   .fieldModification, .vmDeath]

/-- The Event tagged union: one variant per event class of the source, each
carrying its declared fields. -/
inductive Event where
  | vmStart (request_id thread : Nat)
  | singleStep (request_id thread : Nat) (location : Location)
  | breakpoint (request_id thread : Nat) (location : Location)
  | methodEntry (request_id thread : Nat) (location : Location)
  | methodExit (request_id thread : Nat) (location : Location)
  | methodExitWithReturnValue (request_id thread : Nat) (location : Location)
      (value : TaggedValue)
  | monitorContendedEnter (request_id thread object : Nat)
      (location : Location)
  | monitorContendedEntered (request_id thread object : Nat)
      (location : Location)
  | monitorWait (request_id thread object : Nat) (location : Location)
      (timeout : Nat)
  | monitorWaited (request_id thread object : Nat) (location : Location)
      (timed_out : Bool)
  | exceptionEvent (request_id thread : Nat) (location : Location)
      (exception : Nat) (catch_location : Location)
  | threadStart (request_id thread : Nat)
  | threadDeath (request_id thread : Nat)
  | classPrepare (request_id thread ref_type_tag type_id : Nat)
      (signature : List Nat) (status : Nat)
  | classUnload (request_id : Nat) (signature : List Nat)
  | fieldAccess (request_id thread : Nat) (location : Location)
      (ref_type_tag type_id field_id object : Nat)
  | fieldModification (request_id thread : Nat) (location : Location)
      (ref_type_tag type_id field_id object : Nat)
      (value_to_be : TaggedValue)
  | vmDeath (request_id : Nat)
deriving DecidableEq, Repr

/-- The event-kind tag carried by a variant. -/
def eventKindOf : Event → Nat
  | .vmStart .. => 90
  | .singleStep .. => 1
  | .breakpoint .. => 2
  | .methodEntry .. => 40
  | .methodExit .. => 41
  | .methodExitWithReturnValue .. => 42
  | .monitorContendedEnter .. => 43
  | .monitorContendedEntered .. => 44
  | .monitorWait .. => 45
  | .monitorWaited .. => 46
  | .exceptionEvent .. => 4
  | .threadStart .. => 6
  | .threadDeath .. => 7
  | .classPrepare .. => 8
  | .classUnload .. => 9
  | .fieldAccess .. => 20
  | .fieldModification .. => 21
  | .vmDeath .. => 99

/-- The field values of a variant, as the ordered tuple its schema names. -/
def eventFields : Event → List FieldValue
  | .vmStart r t => [.int r, .int t]
  | .singleStep r t l => [.int r, .int t, .loc l]
  | .breakpoint r t l => [.int r, .int t, .loc l]
  | .methodEntry r t l => [.int r, .int t, .loc l]
  | .methodExit r t l => [.int r, .int t, .loc l]
  | .methodExitWithReturnValue r t l v => [.int r, .int t, .loc l, .tagged v]
  | .monitorContendedEnter r t o l => [.int r, .int t, .int o, .loc l]
  | .monitorContendedEntered r t o l => [.int r, .int t, .int o, .loc l]
  | .monitorWait r t o l tm => [.int r, .int t, .int o, .loc l, .int tm]
  | .monitorWaited r t o l b => [.int r, .int t, .int o, .loc l, .bool b]
  | .exceptionEvent r t l e cl => [.int r, .int t, .loc l, .int e, .loc cl]
  | .threadStart r t => [.int r, .int t]
  | .threadDeath r t => [.int r, .int t]
  | .classPrepare r t rt ty sg st =>
    [.int r, .int t, .int rt, .int ty, .str sg, .int st]
  | .classUnload r sg => [.int r, .str sg]
  | .fieldAccess r t l rt ty f o =>
    [.int r, .int t, .loc l, .int rt, .int ty, .int f, .int o]
  | .fieldModification r t l rt ty f o v =>
    [.int r, .int t, .loc l, .int rt, .int ty, .int f, .int o, .tagged v]
  | .vmDeath r => [.int r]

/-- Construct the variant of a class from the decoded field values collected
in schema order; none when the value shapes do not fit. -/
def mkEvent : EventClass → List FieldValue → Option Event
  | .vmStart, [.int r, .int t] => some (.vmStart r t)
  | .singleStep, [.int r, .int t, .loc l] => some (.singleStep r t l)
  | .breakpoint, [.int r, .int t, .loc l] => some (.breakpoint r t l)
  | .methodEntry, [.int r, .int t, .loc l] => some (.methodEntry r t l)
  | .methodExit, [.int r, .int t, .loc l] => some (.methodExit r t l)
  | .methodExitWithReturnValue, [.int r, .int t, .loc l, .tagged v] =>
    some (.methodExitWithReturnValue r t l v)
  | .monitorContendedEnter, [.int r, .int t, .int o, .loc l] =>
    some (.monitorContendedEnter r t o l)
  | .monitorContendedEntered, [.int r, .int t, .int o, .loc l] =>
    some (.monitorContendedEntered r t o l)
  | .monitorWait, [.int r, .int t, .int o, .loc l, .int tm] =>
    some (.monitorWait r t o l tm)
  | .monitorWaited, [.int r, .int t, .int o, .loc l, .bool b] =>
    some (.monitorWaited r t o l b)
  | .exceptionEvent, [.int r, .int t, .loc l, .int e, .loc cl] =>
    some (.exceptionEvent r t l e cl)
  | .threadStart, [.int r, .int t] => some (.threadStart r t)
  | .threadDeath, [.int r, .int t] => some (.threadDeath r t)
  | .classPrepare, [.int r, .int t, .int rt, .int ty, .str sg, .int st] =>
    some (.classPrepare r t rt ty sg st)
  | .classUnload, [.int r, .str sg] => some (.classUnload r sg)
  | .fieldAccess, [.int r, .int t, .loc l, .int rt, .int ty, .int f, .int o] =>
    some (.fieldAccess r t l rt ty f o)
  | .fieldModification,
    [.int r, .int t, .loc l, .int rt, .int ty, .int f, .int o, .tagged v] =>
    some (.fieldModification r t l rt ty f o v)
  | .vmDeath, [.int r] => some (.vmDeath r)
  | _, _ => none

/-- Modelled from the spec: decode one event entry, a 1-byte kind code, the
registry lookup, and the schema fields in order. -/
def decodeOneEvent (w : IdentifierWidths) (buf : List Nat) (off : Nat) :
    Except DecodeError (Event × Nat) :=
  match decodeU8 buf off with
  | .error e => .error e
  | .ok (k, o1) =>
    match classOfKind k with
    | none => .error .unsupportedEventKind
    | some c =>
      match decodeFields w (schemaOf c) buf o1 with
      | .error e => .error e
      | .ok (vals, o2) =>
        match mkEvent c vals with
        | some ev => .ok (ev, o2)
        | none => .error .malformedFields

/-- Modelled from the spec: decode `n` event entries sequentially; a failure
on any entry aborts the whole loop and reports the index of that entry. -/
def decodeEvents (w : IdentifierWidths) (buf : List Nat) :
    Nat → Nat → Nat → Except (DecodeError × Nat) (List Event × Nat)
  | 0, _, off => .ok ([], off)
  | n + 1, i, off =>
    match decodeOneEvent w buf off with
    | .error e => .error (e, i)
    | .ok (ev, o1) =>
      match decodeEvents w buf n (i + 1) o1 with
      | .error p => .error p
      | .ok (evs, o2) => .ok (ev :: evs, o2)

/-- Modelled from the spec: CompositeDecoder.decode, parsing the suspend
policy byte (failing when not in 0, 1, 2), the 4-byte event count, and that
many event entries; returns the policy, the events in wire order, and the
final cursor offset. Trailing bytes past the final offset are ignored. -/
def decodeComposite (w : IdentifierWidths) (buf : List Nat) :
    Except CompositeError (Nat × List Event × Nat) :=
  match decodeU8 buf 0 with
  | .error e => .error (.header e)
  | .ok (p, o1) =>
    if p ≥ 3 then .error (.header .invalidSuspendPolicy)
    else
      match decodeU32 buf o1 with
      | .error e => .error (.header e)
      | .ok (n, o2) =>
        match decodeEvents w buf n 0 o2 with
        | .error (e, k) => .error (.atEvent e k)
        | .ok (evs, o3) => .ok (p, evs, o3)

/-- Hand encoding of a TaggedValue per the wire-format table of the spec. -/
def encodeTaggedValue (w : IdentifierWidths) (tv : TaggedValue) : List Nat :=
  tv.tag ::
    (match payloadSpec tv.tag, tv.data with
     | some (.prim n), .num v => toBytesBE n v
     | some .objectRef, .num v => toBytesBE w.objectW v
     | some .void, .unit => []
     | some .utf, .bytes s => toBytesBE 4 s.length ++ s
     | _, _ => [])

/-- Hand encoding of one field value per its decode operation, following the
wire-format table of the spec. -/
def encodeField (w : IdentifierWidths) (ft : FieldType) (v : FieldValue) :
    List Nat :=
  match ft, v with
  | .u8, .int n => toBytesBE 1 n
  | .u32, .int n => toBytesBE 4 n
  | .u64, .int n => toBytesBE 8 n
  | .boolean, .bool b => [if b then 1 else 0]
  | .ident c, .int n => toBytesBE (w.width c) n
  | .location, .loc l =>
    toBytesBE 1 l.tag ++ toBytesBE w.refTypeW l.classId ++
      toBytesBE w.methodW l.methodId ++ toBytesBE 8 l.index
  | .tagged, .tagged tv => encodeTaggedValue w tv
  | .utfString, .str s => toBytesBE 4 s.length ++ s
  | _, _ => []

/-- Hand encoding of a value tuple per a schema, concatenated in order. -/
def encodeFields (w : IdentifierWidths) :
    List (String × FieldType) → List FieldValue → List Nat
  | (_, ft) :: rest, v :: vs => encodeField w ft v ++ encodeFields w rest vs
  | _, _ => []

/-- A TaggedValue whose payload shape matches its tag and whose numbers fit
the widths the tag selects. -/
def ValidTagged (w : IdentifierWidths) (tv : TaggedValue) : Prop :=
  match payloadSpec tv.tag, tv.data with
  | some (.prim n), .num v => v < 256 ^ n
  | some .objectRef, .num v => v < 256 ^ w.objectW
  | some .void, .unit => True
  | some .utf, .bytes s => s.length < 256 ^ 4 ∧ ∀ b ∈ s, b < 256
  | _, _ => False

instance (w : IdentifierWidths) (tv : TaggedValue) :
    Decidable (ValidTagged w tv) := by
  unfold ValidTagged
  split <;> infer_instance

/-- A field value that fits its decode operation: the shape matches and
every number fits the byte width the operation reads. -/
def ValidValue (w : IdentifierWidths) (ft : FieldType) (v : FieldValue) :
    Prop :=
  match ft, v with
  | .u8, .int n => n < 256
  | .u32, .int n => n < 256 ^ 4
  | .u64, .int n => n < 256 ^ 8
  | .boolean, .bool _ => True
  | .ident c, .int n => n < 256 ^ w.width c
  | .location, .loc l =>
    l.tag < 256 ∧ l.classId < 256 ^ w.refTypeW ∧
      l.methodId < 256 ^ w.methodW ∧ l.index < 256 ^ 8
  | .tagged, .tagged tv => ValidTagged w tv
  | .utfString, .str s => s.length < 256 ^ 4 ∧ ∀ b ∈ s, b < 256
  | _, _ => False

instance (w : IdentifierWidths) (ft : FieldType) (v : FieldValue) :
    Decidable (ValidValue w ft v) := by
  unfold ValidValue
  split <;> infer_instance

/-- A value tuple valid for a schema: same length and each value valid for
the operation of its field. -/
def ValidVals (w : IdentifierWidths) :
    List (String × FieldType) → List FieldValue → Prop
  | [], [] => True
  | (_, ft) :: rest, v :: vs => ValidValue w ft v ∧ ValidVals w rest vs
  | _, _ => False

instance (w : IdentifierWidths) (s : List (String × FieldType))
    (vs : List FieldValue) : Decidable (ValidVals w s vs) := by
  induction s generalizing vs with
  | nil => cases vs <;> · unfold ValidVals; infer_instance
  | cons hd tl ih =>
    cases vs with
    | nil => unfold ValidVals; infer_instance
    | cons v vs2 =>
      obtain ⟨n, ft⟩ := hd
      have := ih vs2
      unfold ValidVals
      infer_instance

/-- Python values as they appear as class-level attribute defaults in the
source: None, an integer, a boolean, or a string. -/
inductive PyValue where
  | pyNone
  | pyNat (n : Nat)
  | pyBool (b : Bool)
  | pyStr (s : String)
deriving DecidableEq, Repr

/-- Class-level attributes of the base Event class, verbatim from the
source: event_kind defaults to None and request_id to 0. -/
def baseClassAttrs : List (String × PyValue) :=
  [("event_kind", .pyNone), ("request_id", .pyNat 0)]

/-- Class-level attributes declared in each subclass body, verbatim from the
source (the EventKind constant is its wire code). -/
def ownClassAttrs : EventClass → List (String × PyValue)
  | .vmStart => [("event_kind", .pyNat 90), ("thread", .pyNat 0)]
  | .singleStep =>
    [("event_kind", .pyNat 1), ("thread", .pyNat 0), ("location", .pyNone)]
  | .breakpoint =>
    [("event_kind", .pyNat 2), ("thread", .pyNat 0), ("location", .pyNone)]
  | .methodEntry =>
    [("event_kind", .pyNat 40), ("thread", .pyNat 0), ("location", .pyNone)]
  | .methodExit =>
    [("event_kind", .pyNat 41), ("thread", .pyNat 0), ("location", .pyNone)]
  | .methodExitWithReturnValue =>
    [("event_kind", .pyNat 42), ("thread", .pyNat 0), ("location", .pyNone),
     ("value", .pyNone)]
  | .monitorContendedEnter =>
    [("event_kind", .pyNat 43), ("thread", .pyNat 0), ("object", .pyNone),
     ("location", .pyNone)]
  | .monitorContendedEntered =>
    [("event_kind", .pyNat 44), ("thread", .pyNat 0), ("object", .pyNone),
     ("location", .pyNone)]
  | .monitorWait =>
    [("event_kind", .pyNat 45), ("thread", .pyNat 0), ("object", .pyNone),
     ("location", .pyNone), ("timeout", .pyNat 0)]
  | .monitorWaited =>
    [("event_kind", .pyNat 46), ("thread", .pyNat 0), ("object", .pyNone),
     ("location", .pyNone), ("timed_out", .pyBool false)]
  | .exceptionEvent =>
    [("event_kind", .pyNat 4), ("thread", .pyNat 0), ("location", .pyNone),
     ("exception", .pyNat 0), ("catch_location", .pyNone)]
  | .threadStart => [("event_kind", .pyNat 6), ("thread", .pyNat 0)]
  | .threadDeath => [("event_kind", .pyNat 7), ("thread", .pyNat 0)]
  | .classPrepare =>
    [("event_kind", .pyNat 8), ("thread", .pyNat 0),
     ("ref_type_tag", .pyNat 0), ("type_id", .pyNat 0),
     ("signature", .pyStr ""), ("status", .pyNat 0)]
  | .classUnload => [("event_kind", .pyNat 9), ("signature", .pyStr "")]
  | .fieldAccess =>
    [("event_kind", .pyNat 20), ("thread", .pyNat 0), ("location", .pyNone),
     ("ref_type_tag", .pyNat 0), ("type_id", .pyNat 0),
     ("field_id", .pyNat 0), ("object", .pyNone)]
  | .fieldModification =>
    [("event_kind", .pyNat 21), ("thread", .pyNat 0), ("location", .pyNone),
     ("ref_type_tag", .pyNat 0), ("type_id", .pyNat 0),
     ("field_id", .pyNat 0), ("object", .pyNone), ("value_to_be", .pyNone)]
  | .vmDeath => [("event_kind", .pyNat 99)]

/-- Python attribute lookup on a class: the class body first, then the base
Event class. -/
def classAttrLookup (c : EventClass) (name : String) : Option PyValue :=
  match (ownClassAttrs c).lookup name with
  | some v => some v
  | none => baseClassAttrs.lookup name

/-- A Python instance: its class plus its own instance dictionary. -/
structure PyInstance where
  cls : EventClass
  instDict : List (String × PyValue)

/-- A freshly constructed instance: its instance dictionary is empty, so
every attribute read falls through to the (shared) class dictionaries. -/
def freshInstance (c : EventClass) : PyInstance := ⟨c, []⟩

/-- Python attribute lookup on an instance: the instance dictionary first,
then the class dictionaries. -/
def attrLookup (i : PyInstance) (name : String) : Option PyValue :=
  match i.instDict.lookup name with
  | some v => some v
  | none => classAttrLookup i.cls name

/-- The attribute names defined for a class, its own and the inherited. -/
def declaredFields (c : EventClass) : List String :=
  (ownClassAttrs c).map Prod.fst ++ baseClassAttrs.map Prod.fst

/-- The default value each schema field name carries in the source: 0 for
identifier and integer fields, None for location, object and value fields,
False for timed_out, the empty string for signature, 0 for request_id. -/
def expectedDefault : String → PyValue
  | "timed_out" => .pyBool false
  | "signature" => .pyStr ""
  | "location" => .pyNone
  | "catch_location" => .pyNone
  | "object" => .pyNone
  | "value" => .pyNone
  | "value_to_be" => .pyNone
  | _ => .pyNat 0

/-! ## Byte-level lemmas -/

theorem toBytesBE_length (w n : Nat) : (toBytesBE w n).length = w := by
  induction w generalizing n with
  | zero => rfl
  | succ w ih => simp [toBytesBE, ih]

theorem fromBytesBE_append_single (l : List Nat) (b : Nat) :
    fromBytesBE (l ++ [b]) = fromBytesBE l * 256 + b := by
  simp [fromBytesBE]

theorem fromBytesBE_single (b : Nat) : fromBytesBE [b] = b := by
  simp [fromBytesBE]

theorem fromBytesBE_toBytesBE (w n : Nat) (h : n < 256 ^ w) :
    fromBytesBE (toBytesBE w n) = n := by
  induction w generalizing n with
  | zero =>
    interval_cases n
    rfl
  | succ w ih =>
    have hdiv : n / 256 < 256 ^ w := by
      rw [Nat.div_lt_iff_lt_mul (by omega)]
      calc n < 256 ^ (w + 1) := h
        _ = 256 ^ w * 256 := by ring
    rw [toBytesBE, fromBytesBE_append_single, ih _ hdiv]
    omega

theorem dropAt (buf : List Nat) (off : Nat) (enc rest : List Nat)
    (H : buf.drop off = enc ++ rest) :
    buf.drop (off + enc.length) = rest := by
  rw [← List.drop_drop, H, List.drop_left]

theorem boundAt (buf : List Nat) (off : Nat) (enc rest : List Nat)
    (H : buf.drop off = enc ++ rest) (hoff : off ≤ buf.length) :
    off + enc.length ≤ buf.length := by
  have hlen : buf.length - off = enc.length + rest.length := by
    rw [← List.length_drop, H, List.length_append]
  omega

/-! ## Decoding the bytes produced by hand encoding -/

theorem decodeUn_spec (buf : List Nat) (off n : Nat) (enc rest : List Nat)
    (henc : enc.length = n) (H : buf.drop off = enc ++ rest)
    (hoff : off ≤ buf.length) :
    decodeUn buf off n = .ok (fromBytesBE enc, off + n) := by
  have hb := boundAt buf off enc rest H hoff
  rw [decodeUn, if_pos (by omega)]
  rw [H, ← henc, List.take_left]

theorem decodeUn_ok_bounds (buf : List Nat) (off n v o : Nat)
    (h : decodeUn buf off n = .ok (v, o)) :
    o = off + n ∧ off + n ≤ buf.length := by
  rw [decodeUn] at h
  split at h
  · exact ⟨by injection h with h1; injection h1; omega, by assumption⟩
  · exact absurd h (by simp)

theorem decodeLocation_spec (w : IdentifierWidths) (buf : List Nat)
    (off : Nat) (l : Location) (rest : List Nat)
    (hv : l.tag < 256 ∧ l.classId < 256 ^ w.refTypeW ∧
      l.methodId < 256 ^ w.methodW ∧ l.index < 256 ^ 8)
    (H : buf.drop off = encodeField w .location (.loc l) ++ rest)
    (hoff : off ≤ buf.length) :
    decodeLocation w buf off =
      .ok (l, off + (encodeField w .location (.loc l)).length) := by
  obtain ⟨h1, h2, h3, h4⟩ := hv
  rw [encodeField] at H
  rw [List.append_assoc, List.append_assoc, List.append_assoc] at H
  have htag : buf.drop off = toBytesBE 1 l.tag ++
      (toBytesBE w.refTypeW l.classId ++ (toBytesBE w.methodW l.methodId ++
        (toBytesBE 8 l.index ++ rest))) := H
  have e1 := decodeUn_spec buf off 1 _ _ (toBytesBE_length 1 l.tag) htag hoff
  have hoff1 := boundAt buf off _ _ htag hoff
  have hd1 := dropAt buf off _ _ htag
  rw [toBytesBE_length] at hoff1 hd1
  have e2 := decodeUn_spec buf (off + 1) w.refTypeW _ _
    (toBytesBE_length w.refTypeW l.classId) hd1 hoff1
  have hoff2 := boundAt buf (off + 1) _ _ hd1 hoff1
  have hd2 := dropAt buf (off + 1) _ _ hd1
  rw [toBytesBE_length] at hoff2 hd2
  have e3 := decodeUn_spec buf (off + 1 + w.refTypeW) w.methodW _ _
    (toBytesBE_length w.methodW l.methodId) hd2 hoff2
  have hoff3 := boundAt buf (off + 1 + w.refTypeW) _ _ hd2 hoff2
  have hd3 := dropAt buf (off + 1 + w.refTypeW) _ _ hd2
  rw [toBytesBE_length] at hoff3 hd3
  have e4 := decodeUn_spec buf (off + 1 + w.refTypeW + w.methodW) 8 _ _
    (toBytesBE_length 8 l.index) hd3 hoff3
  rw [fromBytesBE_toBytesBE 1 l.tag h1] at e1
  rw [fromBytesBE_toBytesBE w.refTypeW l.classId h2] at e2
  rw [fromBytesBE_toBytesBE w.methodW l.methodId h3] at e3
  rw [fromBytesBE_toBytesBE 8 l.index h4] at e4
  simp only [decodeLocation, decodeU8, decodeU64, decodeIdentifier,
    IdentifierWidths.width, e1, e2, e3, e4, encodeField, List.length_append,
    toBytesBE_length]
  simp only [Except.ok.injEq, Prod.mk.injEq]
  exact ⟨trivial, by omega⟩

theorem decodeUtf_spec (buf : List Nat) (off : Nat) (s rest : List Nat)
    (hlen : s.length < 256 ^ 4)
    (H : buf.drop off = (toBytesBE 4 s.length ++ s) ++ rest)
    (hoff : off ≤ buf.length) :
    decodeUtf buf off = .ok (s, off + (4 + s.length)) := by
  rw [List.append_assoc] at H
  have e1 := decodeUn_spec buf off 4 _ _ (toBytesBE_length 4 s.length) H hoff
  rw [fromBytesBE_toBytesBE 4 s.length hlen] at e1
  have hoff1 := boundAt buf off _ _ H hoff
  have hd1 := dropAt buf off _ _ H
  rw [toBytesBE_length] at hoff1 hd1
  have hb := boundAt buf (off + 4) s rest hd1 hoff1
  simp only [decodeUtf, decodeU32, e1]
  rw [if_pos (by omega), hd1, List.take_left]
  simp only [Except.ok.injEq, Prod.mk.injEq]
  exact ⟨by trivial, by omega⟩

theorem decodeTaggedValue_spec (w : IdentifierWidths) (tv : TaggedValue)
    (buf : List Nat) (off : Nat) (rest : List Nat) (hv : ValidTagged w tv)
    (H : buf.drop off = encodeTaggedValue w tv ++ rest)
    (hoff : off ≤ buf.length) :
    decodeTaggedValue w buf off =
      .ok (tv, off + (encodeTaggedValue w tv).length) := by
  obtain ⟨tag, data⟩ := tv
  unfold ValidTagged at hv
  unfold encodeTaggedValue at H ⊢
  simp only at hv H ⊢
  cases hps : payloadSpec tag with
  | none =>
    rw [hps] at hv
    cases data <;> exact False.elim hv
  | some tk =>
    rw [hps] at hv H
    cases tk with
    | prim n =>
      cases data with
      | num v =>
        have hv2 : v < 256 ^ n := hv
        have H2 : buf.drop off = [tag] ++ (toBytesBE n v ++ rest) := by
          rw [H]
          simp
        have e1 := decodeUn_spec buf off 1 _ _ (by simp) H2 hoff
        rw [fromBytesBE_single] at e1
        have hoff1 := boundAt buf off _ _ H2 hoff
        have hd1 := dropAt buf off _ _ H2
        simp only [List.length_singleton] at hoff1 hd1
        have e2 := decodeUn_spec buf (off + 1) n _ _
          (toBytesBE_length n v) hd1 hoff1
        rw [fromBytesBE_toBytesBE n v hv2] at e2
        simp only [decodeTaggedValue, decodeU8, e1, hps, e2,
          List.length_cons, toBytesBE_length]
        simp only [Except.ok.injEq, Prod.mk.injEq]
        exact ⟨by trivial, by omega⟩
      | unit => exact False.elim hv
      | bytes s => exact False.elim hv
    | objectRef =>
      cases data with
      | num v =>
        have hv2 : v < 256 ^ w.objectW := hv
        have H2 : buf.drop off = [tag] ++ (toBytesBE w.objectW v ++ rest) := by
          rw [H]
          simp
        have e1 := decodeUn_spec buf off 1 _ _ (by simp) H2 hoff
        rw [fromBytesBE_single] at e1
        have hoff1 := boundAt buf off _ _ H2 hoff
        have hd1 := dropAt buf off _ _ H2
        simp only [List.length_singleton] at hoff1 hd1
        have e2 := decodeUn_spec buf (off + 1) w.objectW _ _
          (toBytesBE_length w.objectW v) hd1 hoff1
        rw [fromBytesBE_toBytesBE w.objectW v hv2] at e2
        simp only [decodeTaggedValue, decodeU8, e1, hps, decodeIdentifier,
          IdentifierWidths.width, e2, List.length_cons, toBytesBE_length]
        simp only [Except.ok.injEq, Prod.mk.injEq]
        exact ⟨by trivial, by omega⟩
      | unit => exact False.elim hv
      | bytes s => exact False.elim hv
    | void =>
      cases data with
      | unit =>
        have H2 : buf.drop off = [tag] ++ ([] ++ rest) := by
          rw [H]
          simp
        have e1 := decodeUn_spec buf off 1 _ _ (by simp) H2 hoff
        rw [fromBytesBE_single] at e1
        simp only [decodeTaggedValue, decodeU8, e1, hps, List.length_cons,
          List.length_nil]
      | num v => exact False.elim hv
      | bytes s => exact False.elim hv
    | utf =>
      cases data with
      | bytes s =>
        have hv2 : s.length < 256 ^ 4 ∧ ∀ b ∈ s, b < 256 := hv
        have H2 : buf.drop off =
            [tag] ++ ((toBytesBE 4 s.length ++ s) ++ rest) := by
          rw [H]
          simp
        have e1 := decodeUn_spec buf off 1 _ _ (by simp) H2 hoff
        rw [fromBytesBE_single] at e1
        have hoff1 := boundAt buf off _ _ H2 hoff
        have hd1 := dropAt buf off _ _ H2
        simp only [List.length_singleton] at hoff1 hd1
        have e2 := decodeUtf_spec buf (off + 1) s rest hv2.1 hd1 hoff1
        simp only [decodeTaggedValue, decodeU8, e1, hps, e2,
          List.length_cons, List.length_append, toBytesBE_length]
        simp only [Except.ok.injEq, Prod.mk.injEq]
        exact ⟨by trivial, by omega⟩
      | num v => exact False.elim hv
      | unit => exact False.elim hv

theorem decodeField_spec (w : IdentifierWidths) (ft : FieldType)
    (v : FieldValue) (buf : List Nat) (off : Nat) (rest : List Nat)
    (hv : ValidValue w ft v)
    (H : buf.drop off = encodeField w ft v ++ rest)
    (hoff : off ≤ buf.length) :
    decodeField w ft buf off = .ok (v, off + (encodeField w ft v).length) := by
  cases ft <;> cases v <;> try exact hv.elim
  case u8.int n =>
    rw [encodeField] at H ⊢
    have e := decodeUn_spec buf off 1 _ _ (toBytesBE_length 1 n) H hoff
    rw [fromBytesBE_toBytesBE 1 n hv] at e
    simp [decodeField, decodeU8, e, toBytesBE_length]
  case u32.int n =>
    rw [encodeField] at H ⊢
    have e := decodeUn_spec buf off 4 _ _ (toBytesBE_length 4 n) H hoff
    rw [fromBytesBE_toBytesBE 4 n hv] at e
    simp [decodeField, decodeU32, e, toBytesBE_length]
  case u64.int n =>
    rw [encodeField] at H ⊢
    have e := decodeUn_spec buf off 8 _ _ (toBytesBE_length 8 n) H hoff
    rw [fromBytesBE_toBytesBE 8 n hv] at e
    simp [decodeField, decodeU64, e, toBytesBE_length]
  case boolean.bool b =>
    rw [encodeField] at H ⊢
    have e := decodeUn_spec buf off 1 [if b then 1 else 0] rest (by simp)
      H hoff
    rw [fromBytesBE_single] at e
    cases b <;> simp [decodeField, decodeU8, e]
  case ident.int c n =>
    rw [encodeField] at H ⊢
    have e := decodeUn_spec buf off (w.width c) _ _
      (toBytesBE_length (w.width c) n) H hoff
    rw [fromBytesBE_toBytesBE (w.width c) n hv] at e
    simp [decodeField, decodeIdentifier, e, toBytesBE_length]
  case location.loc l =>
    have e := decodeLocation_spec w buf off l rest hv H hoff
    simp [decodeField, e]
  case tagged.tagged tv =>
    have e := decodeTaggedValue_spec w tv buf off rest hv H hoff
    simp [decodeField, e, encodeField]
  case utfString.str s =>
    rw [encodeField] at H ⊢
    have e := decodeUtf_spec buf off s rest hv.1 H hoff
    simp [decodeField, e, toBytesBE_length]

theorem decodeFields_spec (w : IdentifierWidths) :
    ∀ (schema : List (String × FieldType)) (vals : List FieldValue)
      (buf : List Nat) (off : Nat) (rest : List Nat),
      ValidVals w schema vals →
      buf.drop off = encodeFields w schema vals ++ rest →
      off ≤ buf.length →
      decodeFields w schema buf off =
        .ok (vals, off + (encodeFields w schema vals).length) := by
  intro schema
  induction schema with
  | nil =>
    intro vals buf off rest hv H hoff
    cases vals with
    | nil => simp [decodeFields, encodeFields]
    | cons v vs => exact hv.elim
  | cons hd tl ih =>
    intro vals buf off rest hv H hoff
    obtain ⟨n, ft⟩ := hd
    cases vals with
    | nil => exact hv.elim
    | cons v vs =>
      obtain ⟨hv1, hv2⟩ := hv
      rw [show encodeFields w ((n, ft) :: tl) (v :: vs) =
        encodeField w ft v ++ encodeFields w tl vs from rfl] at H ⊢
      rw [List.append_assoc] at H
      have e1 := decodeField_spec w ft v buf off _ hv1 H hoff
      have hoff1 := boundAt buf off _ _ H hoff
      have hd1 := dropAt buf off _ _ H
      have e2 := ih vs buf (off + (encodeField w ft v).length) rest hv2
        hd1 hoff1
      simp only [decodeFields, e1, e2]
      simp only [Except.ok.injEq, Prod.mk.injEq, List.length_append]
      exact ⟨trivial, by omega⟩

theorem validVals_cons {w : IdentifierWidths} {n : String} {ft : FieldType}
    {rest : List (String × FieldType)} {vals : List FieldValue}
    (h : ValidVals w ((n, ft) :: rest) vals) :
    ∃ v vs, vals = v :: vs ∧ ValidValue w ft v ∧ ValidVals w rest vs := by
  cases vals with
  | nil => exact False.elim h
  | cons v vs => exact ⟨v, vs, rfl, h.1, h.2⟩

theorem validVals_nil {w : IdentifierWidths} {vals : List FieldValue}
    (h : ValidVals w [] vals) : vals = [] := by
  cases vals with
  | nil => rfl
  | cons v vs => exact False.elim h

theorem classOfKind_kindCode (c : EventClass) :
    classOfKind (kindCode c) = some c := by
  cases c <;> rfl

theorem mkEvent_spec (w : IdentifierWidths) (c : EventClass)
    (vals : List FieldValue) (hv : ValidVals w (schemaOf c) vals) :
    ∃ ev, mkEvent c vals = some ev ∧ eventFields ev = vals ∧
      eventKindOf ev = kindCode c := by
  cases c <;>
  · repeat
      (replace hv := validVals_cons hv;
       obtain ⟨v, vs, rfl, h, hv⟩ := hv;
       cases v <;> try exact False.elim h)
    obtain rfl := validVals_nil hv
    exact ⟨_, rfl, rfl, rfl⟩

theorem decodeOneEvent_spec (w : IdentifierWidths) (c : EventClass)
    (vals : List FieldValue) (buf : List Nat) (off : Nat) (rest : List Nat)
    (hv : ValidVals w (schemaOf c) vals)
    (H : buf.drop off =
      (kindCode c :: encodeFields w (schemaOf c) vals) ++ rest)
    (hoff : off ≤ buf.length) :
    ∃ ev, decodeOneEvent w buf off =
        .ok (ev, off + 1 + (encodeFields w (schemaOf c) vals).length) ∧
      eventFields ev = vals ∧ eventKindOf ev = kindCode c := by
  have H2 : buf.drop off =
      [kindCode c] ++ (encodeFields w (schemaOf c) vals ++ rest) := by
    rw [H]
    simp
  have e1 := decodeUn_spec buf off 1 _ _ (by simp) H2 hoff
  rw [fromBytesBE_single] at e1
  have hoff1 := boundAt buf off _ _ H2 hoff
  have hd1 := dropAt buf off _ _ H2
  simp only [List.length_singleton] at hoff1 hd1
  have e2 := decodeFields_spec w (schemaOf c) vals buf (off + 1) rest hv
    hd1 hoff1
  obtain ⟨ev, hmk, hfields, hkind⟩ := mkEvent_spec w c vals hv
  refine ⟨ev, ?_, hfields, hkind⟩
  simp only [decodeOneEvent, decodeU8, e1, classOfKind_kindCode, e2, hmk]

theorem decodeEvents_fail_at (w : IdentifierWidths) (buf : List Nat) :
    ∀ (k n i off : Nat) (evs : List Event) (off2 : Nat) (e : DecodeError),
      k < n → decodeEvents w buf k i off = .ok (evs, off2) →
      decodeOneEvent w buf off2 = .error e →
      decodeEvents w buf n i off = .error (e, i + k) := by
  intro k
  induction k with
  | zero =>
    intro n i off evs off2 e hk hok hfail
    cases n with
    | zero => omega
    | succ m =>
      have hoff2 : off2 = off := by
        simp only [decodeEvents, Except.ok.injEq, Prod.mk.injEq] at hok
        exact hok.2.symm
      subst hoff2
      simp [decodeEvents, hfail]
  | succ k ih =>
    intro n i off evs off2 e hk hok hfail
    cases n with
    | zero => omega
    | succ m =>
      cases h1 : decodeOneEvent w buf off with
      | error e1 =>
        simp only [decodeEvents, h1] at hok
        exact Except.noConfusion hok
      | ok p =>
        obtain ⟨ev, o1⟩ := p
        cases h2 : decodeEvents w buf k (i + 1) o1 with
        | error q =>
          simp only [decodeEvents, h1, h2] at hok
          exact Except.noConfusion hok
        | ok q =>
          obtain ⟨evs2, o2⟩ := q
          have hoff2 : off2 = o2 := by
            simp only [decodeEvents, h1, h2, Except.ok.injEq,
              Prod.mk.injEq] at hok
            exact hok.2.symm
          subst hoff2
          have hrec := ih m (i + 1) o1 evs2 off2 e (by omega) h2 hfail
          simp only [decodeEvents, h1, hrec, Except.error.injEq,
            Prod.mk.injEq]
          exact ⟨by trivial, by omega⟩

/-! ## Truncation: shortening a buffer below the end offset of a successful decode turns the decode into a TruncatedBufferError -/

theorem decodeUn_take_ok (buf : List Nat) (off n v o m : Nat)
    (h : decodeUn buf off n = .ok (v, o)) (hm : o ≤ m) :
    decodeUn (buf.take m) off n = .ok (v, o) := by
  obtain ⟨ho, hb⟩ := decodeUn_ok_bounds buf off n v o h
  subst ho
  rw [decodeUn, if_pos hb] at h
  rw [decodeUn, if_pos (by simp only [List.length_take]; omega)]
  have hs : ((buf.take m).drop off).take n = (buf.drop off).take n := by
    rw [List.drop_take, List.take_take]
    congr 1
    omega
  rw [hs]
  exact h

theorem decodeUn_take_trunc (buf : List Nat) (off n v o m : Nat)
    (h : decodeUn buf off n = .ok (v, o)) (hm : m < o) :
    decodeUn (buf.take m) off n = .error .truncatedBuffer := by
  obtain ⟨ho, hb⟩ := decodeUn_ok_bounds buf off n v o h
  subst ho
  rw [decodeUn, if_neg (by simp only [List.length_take]; omega)]

theorem decodeUtf_ok_bounds (buf : List Nat) (off : Nat) (s : List Nat)
    (o : Nat) (h : decodeUtf buf off = .ok (s, o)) :
    off + 4 + s.length = o ∧ o ≤ buf.length := by
  rw [decodeUtf] at h
  cases h1 : decodeU32 buf off with
  | error e =>
    simp only [h1] at h
    exact Except.noConfusion h
  | ok p =>
    obtain ⟨len, o1⟩ := p
    obtain ⟨ho1, hb1⟩ := decodeUn_ok_bounds buf off 4 len o1 h1
    simp only [h1] at h
    split at h
    · injection h with h2
      injection h2 with h3 h4
      subst h3
      subst h4
      refine ⟨?_, by omega⟩
      have : ((buf.drop o1).take len).length = len := by
        simp only [List.length_take, List.length_drop]
        omega
      omega
    · exact Except.noConfusion h

theorem decodeUtf_take_trunc (buf : List Nat) (off : Nat) (s : List Nat)
    (o m : Nat) (h : decodeUtf buf off = .ok (s, o)) (hm : m < o) :
    decodeUtf (buf.take m) off = .error .truncatedBuffer := by
  rw [decodeUtf] at h
  cases h1 : decodeU32 buf off with
  | error e =>
    simp only [h1] at h
    exact Except.noConfusion h
  | ok p =>
    obtain ⟨len, o1⟩ := p
    obtain ⟨ho1, hb1⟩ := decodeUn_ok_bounds buf off 4 len o1 h1
    simp only [h1] at h
    split at h
    case isTrue hin =>
      injection h with h2
      injection h2 with h3 h4
      by_cases hc : o1 ≤ m
      · have e1 := decodeUn_take_ok buf off 4 len o1 m h1 hc
        simp only [decodeUtf, decodeU32, e1]
        rw [if_neg (by simp only [List.length_take]; omega)]
      · have e1 := decodeUn_take_trunc buf off 4 len o1 m h1 (by omega)
        simp only [decodeUtf, decodeU32, e1]
    case isFalse => exact Except.noConfusion h

theorem decodeLocation_take_trunc (w : IdentifierWidths) (buf : List Nat)
    (off : Nat) (l : Location) (o m : Nat)
    (h : decodeLocation w buf off = .ok (l, o)) (hm : m < o) :
    decodeLocation w (buf.take m) off = .error .truncatedBuffer := by
  rw [decodeLocation] at h
  cases h1 : decodeU8 buf off with
  | error e =>
    simp only [h1] at h
    exact Except.noConfusion h
  | ok p1 =>
    obtain ⟨tag, o1⟩ := p1
    obtain ⟨ho1, hb1⟩ := decodeUn_ok_bounds buf off 1 tag o1 h1
    simp only [h1] at h
    cases h2 : decodeIdentifier w .refType buf o1 with
    | error e =>
      simp only [h2] at h
      exact Except.noConfusion h
    | ok p2 =>
      obtain ⟨cid, o2⟩ := p2
      obtain ⟨ho2, hb2⟩ := decodeUn_ok_bounds buf o1 _ cid o2 h2
      simp only [h2] at h
      cases h3 : decodeIdentifier w .method buf o2 with
      | error e =>
        simp only [h3] at h
        exact Except.noConfusion h
      | ok p3 =>
        obtain ⟨mid, o3⟩ := p3
        obtain ⟨ho3, hb3⟩ := decodeUn_ok_bounds buf o2 _ mid o3 h3
        simp only [h3] at h
        cases h4 : decodeU64 buf o3 with
        | error e =>
          simp only [h4] at h
          exact Except.noConfusion h
        | ok p4 =>
          obtain ⟨idx, o4⟩ := p4
          obtain ⟨ho4, hb4⟩ := decodeUn_ok_bounds buf o3 8 idx o4 h4
          simp only [h4] at h
          injection h with h5
          injection h5 with h6 h7
          subst h7
          by_cases hc1 : o1 ≤ m
          · have e1 := decodeUn_take_ok buf off 1 tag o1 m h1 hc1
            by_cases hc2 : o2 ≤ m
            · have e2 := decodeUn_take_ok buf o1 _ cid o2 m h2 hc2
              by_cases hc3 : o3 ≤ m
              · have e3 := decodeUn_take_ok buf o2 _ mid o3 m h3 hc3
                have e4 := decodeUn_take_trunc buf o3 8 idx o4 m h4
                  (by omega)
                simp only [decodeLocation, decodeU8, decodeIdentifier,
                  decodeU64, e1, e2, e3, e4]
              · have e3 := decodeUn_take_trunc buf o2 _ mid o3 m h3
                  (by omega)
                simp only [decodeLocation, decodeU8, decodeIdentifier,
                  e1, e2, e3]
            · have e2 := decodeUn_take_trunc buf o1 _ cid o2 m h2 (by omega)
              simp only [decodeLocation, decodeU8, decodeIdentifier, e1, e2]
          · have e1 := decodeUn_take_trunc buf off 1 tag o1 m h1 (by omega)
            simp only [decodeLocation, decodeU8, e1]

theorem decodeTaggedValue_take_trunc (w : IdentifierWidths) (buf : List Nat)
    (off : Nat) (tv : TaggedValue) (o m : Nat)
    (h : decodeTaggedValue w buf off = .ok (tv, o)) (hm : m < o) :
    decodeTaggedValue w (buf.take m) off = .error .truncatedBuffer := by
  rw [decodeTaggedValue] at h
  cases h1 : decodeU8 buf off with
  | error e =>
    simp only [h1] at h
    exact Except.noConfusion h
  | ok p1 =>
    obtain ⟨tag, o1⟩ := p1
    obtain ⟨ho1, hb1⟩ := decodeUn_ok_bounds buf off 1 tag o1 h1
    simp only [h1] at h
    by_cases hc1 : o1 ≤ m
    · have e1 := decodeUn_take_ok buf off 1 tag o1 m h1 hc1
      cases hps : payloadSpec tag with
      | none =>
        simp only [hps] at h
        exact Except.noConfusion h
      | some tk =>
        simp only [hps] at h
        cases tk with
        | prim n =>
          cases h2 : decodeUn buf o1 n with
          | error e =>
            simp only [h2] at h
            exact Except.noConfusion h
          | ok p2 =>
            obtain ⟨v, o2⟩ := p2
            obtain ⟨ho2, hb2⟩ := decodeUn_ok_bounds buf o1 n v o2 h2
            simp only [h2] at h
            injection h with h5
            injection h5 with h6 h7
            subst h7
            have e2 := decodeUn_take_trunc buf o1 n v o2 m h2 (by omega)
            simp only [decodeTaggedValue, decodeU8, e1, hps, e2]
        | objectRef =>
          cases h2 : decodeIdentifier w .object buf o1 with
          | error e =>
            simp only [h2] at h
            exact Except.noConfusion h
          | ok p2 =>
            obtain ⟨v, o2⟩ := p2
            obtain ⟨ho2, hb2⟩ := decodeUn_ok_bounds buf o1 _ v o2 h2
            simp only [h2] at h
            injection h with h5
            injection h5 with h6 h7
            subst h7
            have e2 := decodeUn_take_trunc buf o1 _ v o2 m h2 (by omega)
            simp only [decodeTaggedValue, decodeU8, decodeIdentifier,
              e1, hps, e2]
        | void =>
          injection h with h5
          injection h5 with h6 h7
          omega
        | utf =>
          cases h2 : decodeUtf buf o1 with
          | error e =>
            simp only [h2] at h
            exact Except.noConfusion h
          | ok p2 =>
            obtain ⟨s, o2⟩ := p2
            obtain ⟨ho2, hb2⟩ := decodeUtf_ok_bounds buf o1 s o2 h2
            simp only [h2] at h
            injection h with h5
            injection h5 with h6 h7
            subst h7
            have e2 := decodeUtf_take_trunc buf o1 s o2 m h2 (by omega)
            simp only [decodeTaggedValue, decodeU8, e1, hps, e2]
    · have e1 := decodeUn_take_trunc buf off 1 tag o1 m h1 (by omega)
      simp only [decodeTaggedValue, decodeU8, e1]

theorem decodeField_take_trunc (w : IdentifierWidths) (ft : FieldType)
    (buf : List Nat) (off : Nat) (v : FieldValue) (o m : Nat)
    (h : decodeField w ft buf off = .ok (v, o)) (hm : m < o) :
    decodeField w ft (buf.take m) off = .error .truncatedBuffer := by
  cases ft
  case u8 =>
    simp only [decodeField] at h
    cases h1 : decodeU8 buf off with
    | error e =>
      simp only [h1] at h
      exact Except.noConfusion h
    | ok p =>
      obtain ⟨n1, o1⟩ := p
      simp only [h1] at h
      injection h with h5
      injection h5 with h6 h7
      subst h7
      have e := decodeUn_take_trunc buf off 1 n1 o1 m h1 hm
      simp only [decodeField, decodeU8, e]
  case u32 =>
    simp only [decodeField] at h
    cases h1 : decodeU32 buf off with
    | error e =>
      simp only [h1] at h
      exact Except.noConfusion h
    | ok p =>
      obtain ⟨n1, o1⟩ := p
      simp only [h1] at h
      injection h with h5
      injection h5 with h6 h7
      subst h7
      have e := decodeUn_take_trunc buf off 4 n1 o1 m h1 hm
      simp only [decodeField, decodeU32, e]
  case u64 =>
    simp only [decodeField] at h
    cases h1 : decodeU64 buf off with
    | error e =>
      simp only [h1] at h
      exact Except.noConfusion h
    | ok p =>
      obtain ⟨n1, o1⟩ := p
      simp only [h1] at h
      injection h with h5
      injection h5 with h6 h7
      subst h7
      have e := decodeUn_take_trunc buf off 8 n1 o1 m h1 hm
      simp only [decodeField, decodeU64, e]
  case boolean =>
    simp only [decodeField] at h
    cases h1 : decodeU8 buf off with
    | error e =>
      simp only [h1] at h
      exact Except.noConfusion h
    | ok p =>
      obtain ⟨n1, o1⟩ := p
      simp only [h1] at h
      injection h with h5
      injection h5 with h6 h7
      subst h7
      have e := decodeUn_take_trunc buf off 1 n1 o1 m h1 hm
      simp only [decodeField, decodeU8, e]
  case ident c =>
    simp only [decodeField] at h
    cases h1 : decodeIdentifier w c buf off with
    | error e =>
      simp only [h1] at h
      exact Except.noConfusion h
    | ok p =>
      obtain ⟨n1, o1⟩ := p
      simp only [h1] at h
      injection h with h5
      injection h5 with h6 h7
      subst h7
      have e := decodeUn_take_trunc buf off (w.width c) n1 o1 m h1 hm
      simp only [decodeField, decodeIdentifier, e]
  case location =>
    simp only [decodeField] at h
    cases h1 : decodeLocation w buf off with
    | error e =>
      simp only [h1] at h
      exact Except.noConfusion h
    | ok p =>
      obtain ⟨l, o1⟩ := p
      simp only [h1] at h
      injection h with h5
      injection h5 with h6 h7
      subst h7
      have e := decodeLocation_take_trunc w buf off l o1 m h1 hm
      simp only [decodeField, e]
  case tagged =>
    simp only [decodeField] at h
    cases h1 : decodeTaggedValue w buf off with
    | error e =>
      simp only [h1] at h
      exact Except.noConfusion h
    | ok p =>
      obtain ⟨tv, o1⟩ := p
      simp only [h1] at h
      injection h with h5
      injection h5 with h6 h7
      subst h7
      have e := decodeTaggedValue_take_trunc w buf off tv o1 m h1 hm
      simp only [decodeField, e]
  case utfString =>
    simp only [decodeField] at h
    cases h1 : decodeUtf buf off with
    | error e =>
      simp only [h1] at h
      exact Except.noConfusion h
    | ok p =>
      obtain ⟨s, o1⟩ := p
      simp only [h1] at h
      injection h with h5
      injection h5 with h6 h7
      subst h7
      have e := decodeUtf_take_trunc buf off s o1 m h1 hm
      simp only [decodeField, e]

set_option maxHeartbeats 1000000 in
theorem mkEvent_fields {c : EventClass} {vals : List FieldValue} {ev : Event}
    (h : mkEvent c vals = some ev) : eventFields ev = vals := by
  unfold mkEvent at h
  split at h
  all_goals first
    | exact Option.noConfusion h
    | (injection h with h1; subst h1; rfl)

theorem decodeFields_length (w : IdentifierWidths) :
    ∀ (schema : List (String × FieldType)) (buf : List Nat) (off : Nat)
      (vals : List FieldValue) (o : Nat),
      decodeFields w schema buf off = .ok (vals, o) →
      vals.length = schema.length := by
  intro schema
  induction schema with
  | nil =>
    intro buf off vals o h
    simp only [decodeFields, Except.ok.injEq, Prod.mk.injEq] at h
    rw [← h.1]
    rfl
  | cons hd tl ih =>
    intro buf off vals o h
    obtain ⟨n, ft⟩ := hd
    simp only [decodeFields] at h
    cases h1 : decodeField w ft buf off with
    | error e =>
      simp only [h1] at h
      exact Except.noConfusion h
    | ok p =>
      obtain ⟨v, o1⟩ := p
      simp only [h1] at h
      cases h2 : decodeFields w tl buf o1 with
      | error e =>
        simp only [h2] at h
        exact Except.noConfusion h
      | ok q =>
        obtain ⟨vs, o2⟩ := q
        simp only [h2] at h
        injection h with h5
        injection h5 with h6 h7
        rw [← h6]
        simp only [List.length_cons, ih buf o1 vs o2 h2]

theorem decodeOneEvent_ok_inv (w : IdentifierWidths) (buf : List Nat)
    (off : Nat) (ev : Event) (o : Nat)
    (h : decodeOneEvent w buf off = .ok (ev, o)) :
    ∃ k c vals, decodeU8 buf off = .ok (k, off + 1) ∧
      classOfKind k = some c ∧
      decodeFields w (schemaOf c) buf (off + 1) = .ok (vals, o) ∧
      mkEvent c vals = some ev ∧ eventFields ev = vals ∧
      vals.length = (schemaOf c).length := by
  rw [decodeOneEvent] at h
  cases h1 : decodeU8 buf off with
  | error e =>
    simp only [h1] at h
    exact Except.noConfusion h
  | ok p =>
    obtain ⟨k, o1⟩ := p
    obtain ⟨ho1, hb1⟩ := decodeUn_ok_bounds buf off 1 k o1 h1
    subst ho1
    simp only [h1] at h
    cases h2 : classOfKind k with
    | none =>
      simp only [h2] at h
      exact Except.noConfusion h
    | some c =>
      simp only [h2] at h
      cases h3 : decodeFields w (schemaOf c) buf (off + 1) with
      | error e =>
        simp only [h3] at h
        exact Except.noConfusion h
      | ok q =>
        obtain ⟨vals, o2⟩ := q
        simp only [h3] at h
        cases h4 : mkEvent c vals with
        | none =>
          simp only [h4] at h
          exact Except.noConfusion h
        | some ev2 =>
          simp only [h4] at h
          injection h with h5
          injection h5 with h6 h7
          subst h6
          subst h7
          exact ⟨k, c, vals, rfl, h2, h3, h4, mkEvent_fields h4,
            decodeFields_length w (schemaOf c) buf (off + 1) vals o2 h3⟩

/-- The event class a variant belongs to. -/
def classOfEvent : Event → EventClass
  | .vmStart .. => .vmStart
  | .singleStep .. => .singleStep
  | .breakpoint .. => .breakpoint
  | .methodEntry .. => .methodEntry
  | .methodExit .. => .methodExit
  | .methodExitWithReturnValue .. => .methodExitWithReturnValue
  | .monitorContendedEnter .. => .monitorContendedEnter
  | .monitorContendedEntered .. => .monitorContendedEntered
  | .monitorWait .. => .monitorWait
  | .monitorWaited .. => .monitorWaited
  | .exceptionEvent .. => .exceptionEvent
  | .threadStart .. => .threadStart
  | .threadDeath .. => .threadDeath
  | .classPrepare .. => .classPrepare
  | .classUnload .. => .classUnload
  | .fieldAccess .. => .fieldAccess
  | .fieldModification .. => .fieldModification
  | .vmDeath .. => .vmDeath

/-- The concrete Composite buffer of the breakpoint scenario: suspend policy
0, count 1, kind 2 (Breakpoint), request_id 1, an 8-byte thread 0x1122, and
a location with tag 1, class 0x33, method 0x44, index 0x55. -/
def breakpointScenarioBuf : List Nat :=
  [0x00,
   0x00, 0x00, 0x00, 0x01,
   0x02,
   0x00, 0x00, 0x00, 0x01,
   0x00, 0x00, 0x00, 0x00, 0x00, 0x00, 0x11, 0x22,
   0x01,
   0x00, 0x00, 0x00, 0x00, 0x00, 0x00, 0x00, 0x33,
   0x00, 0x00, 0x00, 0x00, 0x00, 0x00, 0x00, 0x44,
   0x00, 0x00, 0x00, 0x00, 0x00, 0x00, 0x00, 0x55]

/-- A Composite buffer whose second event entry is truncated: suspend policy
0, count 2, a complete VMDeath entry (request_id 7), then a Breakpoint kind
byte with no bytes after it. -/
def truncatedCompositeBuf : List Nat :=
  [0, 0, 0, 0, 2, 99, 0, 0, 0, 7, 2]

/-! ## The claims -/

/-- Claim C1: for every event kind, the decode schema (the unpack order of the variant) has request_id as its first field, and the schema of the VMDeath variant consists of request_id and nothing else. -/
theorem request_id_first_and_vmDeath_only_request_id :
    (∀ c : EventClass, (unpackOrder c).head? = some "request_id") ∧
    unpackOrder EventClass.vmDeath = ["request_id"] :=
  ⟨fun c => by cases c <;> rfl, rfl⟩

/-- Claim C2: with all identifier widths equal to 8, the concrete scenario
buffer decodes to exactly one Breakpoint variant with request_id 1, thread
0x1122 and location (tag 1, class 0x33, method 0x44, index 0x55), consuming
all 43 bytes of the buffer. -/
theorem breakpoint_concrete_buffer_decode :
    decodeComposite widths8 breakpointScenarioBuf =
      .ok (0, [Event.breakpoint 1 0x1122 ⟨1, 0x33, 0x44, 0x55⟩], 43) ∧
    breakpointScenarioBuf.length = 43 :=
  ⟨rfl, rfl⟩

/-- Claim C3: the FieldModification schema is exactly request_id, thread,
location, ref_type_tag, type_id, field_id, object, value_to_be in this
order, and the Breakpoint schema is exactly request_id, thread, location. -/
theorem fieldModification_and_breakpoint_schemas :
    unpackOrder EventClass.fieldModification =
      ["request_id", "thread", "location", "ref_type_tag", "type_id",
       "field_id", "object", "value_to_be"] ∧
    unpackOrder EventClass.breakpoint = ["request_id", "thread", "location"] :=
  ⟨rfl, rfl⟩

/-- Claim C4: Event is a closed tagged union of exactly the 18 declared
variants, and the event_kind tags of the 18 variants are pairwise
distinct. -/
theorem event_closed_union_distinct_kinds :
    (∀ e : Event, classOfEvent e ∈ allEventClasses ∧
      eventKindOf e = kindCode (classOfEvent e)) ∧
    allEventClasses.length = 18 ∧
    (allEventClasses.map kindCode).Nodup := by
  refine ⟨fun e => ?_, by decide, by decide⟩
  cases e <;> exact ⟨by simp [classOfEvent, allEventClasses], rfl⟩

/-- Claim C5: the schema of every variant is a fixed ordered tuple whose entries
name declared fields of the variant (including the inherited request_id)
with no duplicates, and a successful variant decode consumes exactly the
fields of the schema in schema order: it is the sequential field-by-field decode
of the registered schema, producing one value per schema entry. -/
theorem schema_nodup_declared_and_decode_consumes_schema :
    (∀ c : EventClass, ((schemaOf c).map Prod.fst).Nodup ∧
      ∀ f ∈ (schemaOf c).map Prod.fst, f ∈ declaredFields c) ∧
    (∀ (w : IdentifierWidths) (buf : List Nat) (off : Nat) (ev : Event)
      (o : Nat), decodeOneEvent w buf off = .ok (ev, o) →
      ∃ k c vals, decodeU8 buf off = .ok (k, off + 1) ∧
        classOfKind k = some c ∧
        decodeFields w (schemaOf c) buf (off + 1) = .ok (vals, o) ∧
        eventFields ev = vals ∧ vals.length = (schemaOf c).length) := by
  constructor
  · intro c
    cases c <;> exact ⟨by decide, by decide⟩
  · intro w buf off ev o h
    obtain ⟨k, c, vals, h1, h2, h3, _, h5, h6⟩ :=
      decodeOneEvent_ok_inv w buf off ev o h
    exact ⟨k, c, vals, h1, h2, h3, h5, h6⟩

/-- Witness for C5 at a concrete VMDeath entry. -/
theorem schema_decode_consumes_schema_witness :
    decodeOneEvent widths8 [99, 0, 0, 0, 7] 0 = .ok (.vmDeath 7, 5) ∧
    (∃ k c vals, decodeU8 [99, 0, 0, 0, 7] 0 = .ok (k, 0 + 1) ∧
      classOfKind k = some c ∧
      decodeFields widths8 (schemaOf c) [99, 0, 0, 0, 7] (0 + 1) =
        .ok (vals, 5) ∧
      eventFields (Event.vmDeath 7) = vals ∧
      vals.length = (schemaOf c).length) :=
  ⟨rfl,
   schema_nodup_declared_and_decode_consumes_schema.2 widths8
     [99, 0, 0, 0, 7] 0 (.vmDeath 7) 5 rfl⟩

/-- Claim C6: for every event kind and for both the 4-byte and the 8-byte
identifier-width configurations, hand-encoding a valid field-value tuple
per the schema of the kind and decoding the resulting entry yields a variant of
that kind whose field values equal the original tuple, consuming the whole
entry. -/
theorem encode_decode_roundtrip :
    ∀ (c : EventClass) (w : IdentifierWidths), w = widths4 ∨ w = widths8 →
    ∀ vals : List FieldValue, ValidVals w (schemaOf c) vals →
    ∃ ev, decodeOneEvent w (kindCode c :: encodeFields w (schemaOf c) vals) 0 =
        .ok (ev, (kindCode c :: encodeFields w (schemaOf c) vals).length) ∧
      eventFields ev = vals ∧ eventKindOf ev = kindCode c := by
  intro c w _ vals hv
  have H : (kindCode c :: encodeFields w (schemaOf c) vals).drop 0 =
      (kindCode c :: encodeFields w (schemaOf c) vals) ++ [] := by
    simp
  obtain ⟨ev, he, hf, hk⟩ := decodeOneEvent_spec w c vals
    (kindCode c :: encodeFields w (schemaOf c) vals) 0 [] hv H (Nat.zero_le _)
  refine ⟨ev, ?_, hf, hk⟩
  rw [he]
  simp only [List.length_cons, Except.ok.injEq, Prod.mk.injEq]
  exact ⟨by trivial, by omega⟩

/-- Witness for C6: the breakpoint tuple of the concrete scenario, at
8-byte identifier widths. -/
theorem encode_decode_roundtrip_witness :
    (widths8 = widths4 ∨ widths8 = widths8) ∧
    ValidVals widths8 (schemaOf .breakpoint)
      [.int 1, .int 0x1122, .loc ⟨1, 0x33, 0x44, 0x55⟩] ∧
    (∃ ev, decodeOneEvent widths8
        (kindCode .breakpoint :: encodeFields widths8 (schemaOf .breakpoint)
          [.int 1, .int 0x1122, .loc ⟨1, 0x33, 0x44, 0x55⟩]) 0 =
        .ok (ev, (kindCode .breakpoint :: encodeFields widths8
          (schemaOf .breakpoint)
          [.int 1, .int 0x1122, .loc ⟨1, 0x33, 0x44, 0x55⟩]).length) ∧
      eventFields ev = [.int 1, .int 0x1122, .loc ⟨1, 0x33, 0x44, 0x55⟩] ∧
      eventKindOf ev = kindCode .breakpoint) :=
  ⟨Or.inr rfl, by decide,
   encode_decode_roundtrip .breakpoint widths8 (Or.inr rfl)
     [.int 1, .int 0x1122, .loc ⟨1, 0x33, 0x44, 0x55⟩] (by decide)⟩

/-- Claim C7: CompositeDecoder.decode is all-or-nothing: when the header
decodes (valid policy, count n) and the first k event entries decode but
entry k fails, the whole call returns an error carrying the index of the failing
entry k, and no event sequence at all (the Except result carries either a
full event list or an error, never a partial list). -/
theorem composite_all_or_nothing :
    ∀ (w : IdentifierWidths) (buf : List Nat) (p n k off2 : Nat)
      (evs : List Event) (e : DecodeError),
      decodeU8 buf 0 = .ok (p, 1) → p < 3 →
      decodeU32 buf 1 = .ok (n, 5) → k < n →
      decodeEvents w buf k 0 5 = .ok (evs, off2) →
      decodeOneEvent w buf off2 = .error e →
      decodeComposite w buf = .error (.atEvent e k) := by
  intro w buf p n k off2 evs e hp hpol hn hk hpre hfail
  have hrec := decodeEvents_fail_at w buf k n 0 5 evs off2 e hk hpre hfail
  rw [Nat.zero_add] at hrec
  simp only [decodeComposite, hp]
  rw [if_neg (by omega)]
  simp only [hn, hrec]

/-- Witness for C7: a Composite message whose second entry is cut off. -/
theorem composite_all_or_nothing_witness :
    decodeU8 truncatedCompositeBuf 0 = .ok (0, 1) ∧ (0 : Nat) < 3 ∧
    decodeU32 truncatedCompositeBuf 1 = .ok (2, 5) ∧ 1 < 2 ∧
    decodeEvents widths8 truncatedCompositeBuf 1 0 5 =
      .ok ([.vmDeath 7], 10) ∧
    decodeOneEvent widths8 truncatedCompositeBuf 10 =
      .error .truncatedBuffer ∧
    decodeComposite widths8 truncatedCompositeBuf =
      .error (.atEvent .truncatedBuffer 1) :=
  ⟨rfl, by decide, rfl, by decide, rfl, rfl,
   composite_all_or_nothing widths8 truncatedCompositeBuf 0 2 1 10
     [.vmDeath 7] .truncatedBuffer rfl (by decide) rfl (by decide) rfl
     rfl⟩

/-- Claim C8: every FieldDecoder operation fails with TruncatedBufferError
when fewer bytes remain than it requires: a fixed-width integer read with
fewer remaining bytes than its width fails with TruncatedBufferError, and
truncating the buffer of any successful field decode strictly below the end offset of
the decode turns it into TruncatedBufferError, never a successful
decode with wrong values. -/
theorem fieldDecoder_truncation :
    (∀ (buf : List Nat) (off n : Nat), buf.length < off + n →
      decodeUn buf off n = .error .truncatedBuffer) ∧
    (∀ (w : IdentifierWidths) (ft : FieldType) (buf : List Nat)
      (off : Nat) (v : FieldValue) (o m : Nat),
      decodeField w ft buf off = .ok (v, o) → m < o →
      decodeField w ft (buf.take m) off = .error .truncatedBuffer) := by
  constructor
  · intro buf off n hlt
    rw [decodeUn, if_neg (by omega)]
  · intro w ft buf off v o m h hm
    exact decodeField_take_trunc w ft buf off v o m h hm

/-- Witness for C8: a 4-byte integer decode truncated to 3 bytes. -/
theorem fieldDecoder_truncation_witness :
    ([] : List Nat).length < 0 + 4 ∧
    decodeUn [] 0 4 = .error .truncatedBuffer ∧
    decodeField widths8 .u32 [0, 0, 0, 5] 0 = .ok (.int 5, 4) ∧ 3 < 4 ∧
    decodeField widths8 .u32 ([0, 0, 0, 5].take 3) 0 =
      .error .truncatedBuffer :=
  ⟨by decide, fieldDecoder_truncation.1 [] 0 4 (by decide), rfl,
   by decide,
   fieldDecoder_truncation.2 widths8 .u32 [0, 0, 0, 5] 0 (.int 5) 4 3
     rfl (by decide)⟩

/-- Claim C9: every field named in the schema of any variant is defined as a
class-level attribute with the stated default (0 for identifier and integer
fields, None for location, object and value fields, False for timed_out,
the empty string for signature, 0 for request_id), so reading it on a
freshly constructed instance succeeds with that default, and the read
resolves to the shared class-level dictionaries, not per-instance state. -/
theorem schema_fields_have_class_level_defaults :
    ∀ (c : EventClass) (f : String), f ∈ unpackOrder c →
      attrLookup (freshInstance c) f = some (expectedDefault f) ∧
      attrLookup (freshInstance c) f = classAttrLookup c f := by
  intro c
  cases c <;> decide

/-- Witness for C9 at the timed_out field of MonitorWaited. -/
theorem schema_fields_defaults_witness :
    "timed_out" ∈ unpackOrder EventClass.monitorWaited ∧
    (attrLookup (freshInstance .monitorWaited) "timed_out" =
        some (expectedDefault "timed_out") ∧
      attrLookup (freshInstance .monitorWaited) "timed_out" =
        classAttrLookup .monitorWaited "timed_out") :=
  ⟨by decide,
   schema_fields_have_class_level_defaults .monitorWaited "timed_out"
     (by decide)⟩

/-- Claim C10: SingleStep, Breakpoint, MethodEntry and MethodExit have the
identical schema (request_id, thread, location), while their event-kind
tags are pairwise distinct, so the variant-to-schema mapping is not
injective and only the kind tag distinguishes these wire shapes. -/
theorem four_kinds_share_schema_noninjective :
    schemaOf EventClass.singleStep = schemaOf EventClass.breakpoint ∧
    schemaOf EventClass.breakpoint = schemaOf EventClass.methodEntry ∧
    schemaOf EventClass.methodEntry = schemaOf EventClass.methodExit ∧
    unpackOrder EventClass.breakpoint =
      ["request_id", "thread", "location"] ∧
    kindCode EventClass.singleStep ≠ kindCode EventClass.breakpoint ∧
    kindCode EventClass.singleStep ≠ kindCode EventClass.methodEntry ∧
    kindCode EventClass.singleStep ≠ kindCode EventClass.methodExit ∧
    kindCode EventClass.breakpoint ≠ kindCode EventClass.methodEntry ∧
    kindCode EventClass.breakpoint ≠ kindCode EventClass.methodExit ∧
    kindCode EventClass.methodEntry ≠ kindCode EventClass.methodExit ∧
    (∃ c1 c2 : EventClass, c1 ≠ c2 ∧ schemaOf c1 = schemaOf c2) :=
  ⟨by decide, by decide, by decide, by decide, by decide, by decide,
   by decide, by decide, by decide, by decide,
   ⟨.singleStep, .breakpoint, by decide, by decide⟩⟩

end Pyspresso
